import Mathlib

/-!
# Verification of the Cadence runtime excerpt

This file gives a shallow embedding of the parts of the Cadence runtime
excerpted in this repository and proves properties about them:

* the runtime type universe and its subtype relation (what the spec's §4.1
  "Type System & Subtyping" describes, exercised by the interpreter's
  meta-type operations `isSubtype(of:)`, `isInstance(_:)`, `==`),
* the host ↔ interpreter value bridge of `runtime/convert.go`
  (`importValue` / `exportValueWithInterpreter` and their helpers, which are
  part of the excerpt),
* the checker's external-mutation rule exercised by the checker tests
  (`TestArrayUpdateIndexAccess`, `TestMutateContractIndexAccess`,
  `TestContractStructInitIndexAccess`, ...).

The Go sources for `sema.IsSubType`, the interpreter's value `StaticType`
methods and the checker itself are not part of the excerpt; definitions for
those are marked `Modelled from the spec:` and follow the specification's
wording.  Everything in the value bridge is translated from the Go source in
the excerpt.
-/

namespace Cadence

/-- Composite kinds, from `common.CompositeKind` (structure, resource,
contract, event, enum). -/
inductive CompositeKind where
  | structureKind
  | resourceKind
  | contractKind
  | eventKind
  | enumKind
deriving DecidableEq, Repr

/-- The numeric type family.  The Go code has one distinct type per member
(`Int8Value` .. `UInt256Value`, `Word8Value` .. `Word64Value`, `Fix64Value`,
`UFix64Value`, and their `cadence.*` mirrors); they are represented here
uniformly by their kind. -/
inductive NumKind where
  | int | int8 | int16 | int32 | int64 | int128 | int256
  | uint | uint8 | uint16 | uint32 | uint64 | uint128 | uint256
  | word8 | word16 | word32 | word64
  | fix64 | ufix64
deriving DecidableEq, Repr

/-- Modelled from the spec: the closed universe of type constructors of
§3.1.  Nominal composite types are identified by (location, qualified name)
— location `none` denotes builtin types (§3.3 invariant 6).  Interface and
restricted types are not needed by any claim and are omitted. -/
inductive Ty where
  | never
  | void
  | bool
  | stringTy
  | character
  | address
  | path
  | anyStruct
  | anyResource
  | num (k : NumKind)
  | optional (t : Ty)
  | reference (authorized : Bool) (t : Ty)
  | array (t : Ty)
  | dictionary (kt vt : Ty)
  | composite (kind : CompositeKind) (location : Option String) (qid : String)
  | capability (borrow : Ty)
  | meta
deriving DecidableEq, Repr

namespace Ty

/-- Modelled from the spec: a type is a resource type if it is a resource
composite, `AnyResource`, or a container whose payload is a resource
(§3.1: "A resource type is linear"; optionals/arrays/dictionaries of
resources are themselves resource-kinded). -/
def isResource : Ty → Bool
  | .anyResource => true
  | .optional t => isResource t
  | .array t => isResource t
  | .dictionary _ vt => isResource vt
  | .composite kind _ _ => kind = CompositeKind.resourceKind
  | _ => false

/-- A reference type (`&T` / `auth &T`). -/
def isReference : Ty → Bool
  | .reference _ _ => true
  | _ => false

/-- Whether `Never` occurs anywhere inside the type. -/
def mentionsNever : Ty → Bool
  | .never => true
  | .optional t => mentionsNever t
  | .reference _ t => mentionsNever t
  | .array t => mentionsNever t
  | .dictionary kt vt => mentionsNever kt || mentionsNever vt
  | .capability t => mentionsNever t
  | _ => false

end Ty

/-- Modelled from the spec: the subtype relation of §4.1.
* every type is a subtype of itself;
* `Never <: T` for all `T`;
* `T <: T?`, and `T? <: U?` iff `T <: U`;
* `AnyStruct` is the top of non-resource types, `AnyResource` the top of
  resource types;
* `&T <: &U` iff `T <: U`, `auth &T <: &T`, and authorization is never
  implicitly added;
* arrays, dictionaries and the remaining constructors are invariant, and
  nominal types compare by identity (§3.3 invariant 6). -/
def isSubType : Ty → Ty → Bool
  | .never, _ => true
  | .optional s, .optional u => isSubType s u
  | s, .optional u => isSubType s u
  | s, .anyStruct => !s.isResource
  | s, .anyResource => s.isResource
  | .reference sa st, .reference ua ut => (!ua || sa) && isSubType st ut
  | s, u => decide (s = u)

/-- Modelled from the spec: runtime meta-type equality ("Reflection" in §9:
an invalid or unknown meta-type short-circuits every predicate to `false`;
§3.3 invariant 6: types are equal iff structurally identical, nominal kinds
by (location, qualified name)).  `none` is an unknown meta-type (a
`TypeValue` whose static type is nil). -/
def metaEqual : Option Ty → Option Ty → Bool
  | some a, some b => decide (a = b)
  | _, _ => false

/-- Modelled from the spec: the meta-type `isSubtype(of:)` operation (§4.4
rule 9): it consults the type system, and an unknown/nil meta-type is never
a subtype of any well-formed type. -/
def metaIsSubtype : Option Ty → Option Ty → Bool
  | some a, some b => isSubType a b
  | _, _ => false

/-! ## Runtime values and the host-side value mirror -/

/-- Path domains, from `common.PathDomain`. -/
inductive Domain where
  | storage
  | privateDomain
  | publicDomain
  | unknown
deriving DecidableEq, Repr

/-- Source `common.PathDomainFromIdentifier`: unrecognised identifiers map to the
unknown domain. -/
def pathDomainFromIdentifier : String → Domain
  | "storage" => .storage
  | "private" => .privateDomain
  | "public" => .publicDomain
  | _ => .unknown

/-- Source `PathDomain.Identifier()`.  The Go function has no case for the unknown
domain (unreachable there); the model returns `""` for it. -/
def Domain.identifier : Domain → String
  | .storage => "storage"
  | .privateDomain => "private"
  | .publicDomain => "public"
  | .unknown => ""

/-- Interpreter values (`interpreter.Value`), restricted to the
constructors that appear in the excerpted `importValue` /
`exportValueWithInterpreter`.  An ephemeral reference holds the identity of
its target (`EphemeralReferenceValue.Value` is a Go pointer, modelled as an
index into `Env.refHeap`); a storage reference holds (owner address,
storage path, borrowed type) and is dereferenced through the storage
layer. -/
inductive IValue where
  | void
  | nilValue
  | someValue (v : IValue)
  | boolValue (b : Bool)
  | stringValue (s : String)
  | charValue (c : String)
  | num (k : NumKind) (val : Int)
  | address (a : Nat)
  | pathValue (d : Domain) (identifier : String)
  | arrayValue (elem : Ty) (vs : List IValue)
  | dictValue (kt vt : Ty) (ps : List (IValue × IValue))
  | compositeValue (kind : CompositeKind) (location : Option String) (qid : String)
      (fields : List (String × IValue))
  | typeValue (t : Option Ty)
  | capabilityValue (addr : Nat) (d : Domain) (identifier : String) (borrow : Ty)
  | ephemeralRef (authorized : Bool) (borrow : Ty) (target : Nat)
  | storageRef (authorized : Bool) (addr : Nat) (d : Domain) (identifier : String) (borrow : Ty)

/-- Host-side (`cadence.*`) values, the mirror hierarchy of §6.2.  The four
importable composite flavours (`cadence.Struct` / `Resource` / `Event` /
`Enum`) and the export-only `cadence.Contract` are distinguished by their
kind; each carries its type information (location, qualified identifier and
field list, as in `cadence.StructType` etc.).  `null` stands for a Go `nil`
`cadence.Value` (produced by export when breaking reference cycles). -/
inductive CValue where
  | void
  | optionalValue (v : Option CValue)
  | boolValue (b : Bool)
  | stringValue (s : String)
  | charValue (c : String)
  | bytes (bs : List Nat)
  | num (k : NumKind) (val : Int)
  | address (a : Nat)
  | pathValue (domain : String) (identifier : String)
  | arrayValue (t : Option Ty) (vs : List CValue)
  | dictValue (t : Option (Ty × Ty)) (ps : List (CValue × CValue))
  | compositeValue (kind : CompositeKind) (location : Option String) (qid : String)
      (fieldTypes : List (String × Ty)) (vals : List CValue)
  | typeValue (t : Option Ty)
  | capabilityValue (domain : String) (identifier : String) (addr : Nat) (borrow : Ty)
  | null

/-- The declared shape of a composite type: kind and ordered field list
(`sema.CompositeType.Kind` / `.Fields` + member types). -/
structure CompositeInfo where
  kind : CompositeKind
  fields : List (String × Ty)
deriving DecidableEq, Repr

/-- The ambient interpreter state the value bridge reads: resolved
composite types keyed by (location, qualified identifier), the heap of
ephemeral-reference targets, and per-account storage keyed by (address,
domain, identifier). -/
structure Env where
  composites : List ((String × String) × CompositeInfo)
  refHeap : List (Nat × IValue)
  storage : List ((Nat × Domain × String) × IValue)

/-- Modelled from the spec (§6.2): the native composite types reachable
from the value bridge — the built-in composites `PublicKey`,
`HashAlgorithm` and `SignatureAlgorithm` constructed via dedicated paths.
Stands for `sema.NativeCompositeTypes`, which is not in the excerpt. -/
def nativeCompositeInfo : String → Option CompositeInfo
  | "PublicKey" => some ⟨.structureKind,
      [("publicKey", .array (.num .uint8)),
       ("signatureAlgorithm", .composite .enumKind none "SignatureAlgorithm")]⟩
  | "HashAlgorithm" => some ⟨.enumKind, [("rawValue", .num .uint8)]⟩
  | "SignatureAlgorithm" => some ⟨.enumKind, [("rawValue", .num .uint8)]⟩
  | _ => none

/-- Modelled from the spec (§6.2: "every inbound composite must match a
resolved composite type"): `Interpreter.GetCompositeType`, which is not in
the excerpt.  A `nil` location resolves among the native composite types;
any other location must resolve in the elaborations the host supplied. -/
def getCompositeType (env : Env) (location : Option String) (qid : String) :
    Except String CompositeInfo :=
  match location with
  | none =>
      match nativeCompositeInfo qid with
      | some info => .ok info
      | none => .error ("cannot load type: " ++ qid)
  | some l =>
      match env.composites.lookup (l, qid) with
      | some info => .ok info
      | none => .error ("cannot load type: " ++ qid)

/-- Modelled from the spec: `Interpreter.ConvertStaticToSemaType` as a
validity check — the conversion succeeds iff every composite type mentioned
resolves.  Used by `importTypeValue`'s validation and by the export of
meta-types and capability borrow types. -/
def tyResolvable (env : Env) : Ty → Bool
  | .optional t => tyResolvable env t
  | .reference _ t => tyResolvable env t
  | .array t => tyResolvable env t
  | .dictionary kt vt => tyResolvable env kt && tyResolvable env vt
  | .capability t => tyResolvable env t
  | .composite _ loc qid =>
      match getCompositeType env loc qid with
      | .ok _ => true
      | .error _ => false
  | _ => true

/-- Modelled from the spec (§3.2, §4.4 rule 9): the static type of an
interpreter value.  A reference value's static type is the reference type
itself — its authorization and borrowed type — without dereferencing. -/
def IValue.staticType : IValue → Ty
  | .void => .void
  | .nilValue => .optional .never
  | .someValue v => .optional v.staticType
  | .boolValue _ => .bool
  | .stringValue _ => .stringTy
  | .charValue _ => .character
  | .num k _ => .num k
  | .address _ => .address
  | .pathValue _ _ => .path
  | .arrayValue t _ => .array t
  | .dictValue kt vt _ => .dictionary kt vt
  | .compositeValue kind loc qid _ => .composite kind loc qid
  | .typeValue _ => .meta
  | .capabilityValue _ _ _ borrow => .capability borrow
  | .ephemeralRef auth borrow _ => .reference auth borrow
  | .storageRef auth _ _ _ borrow => .reference auth borrow

/-- Modelled from the spec (§4.4 rule 9): `getType()` returns a meta-type
value wrapping the value's static type. -/
def IValue.getType (v : IValue) : IValue := .typeValue (some v.staticType)

/-- Modelled from the spec (§4.4 rule 9, §9 "Reflection"): `isInstance(_:)`
consults the type system; an unknown meta-type is never an instance target.
-/
def IValue.isInstance (v : IValue) : Option Ty → Bool
  | some t => isSubType v.staticType t
  | none => false

/-- Modelled from the spec (§4.1): `sema.LeastCommonSuperType` returns the
unique smallest type bounding a set, falling back to `AnyStruct` /
`AnyResource` / the invalid type (`none` here) per kind homogeneity. -/
def leastCommonSuperType : List Ty → Option Ty
  | [] => some .never
  | t :: rest =>
      if rest.all fun u => decide (u = t) then some t
      else if (t :: rest).all fun u => !u.isResource then some .anyStruct
      else if (t :: rest).all fun u => u.isResource then some .anyResource
      else none

/-- Modelled from the spec (§3.1: dictionary keys are restricted to
hashable key types): `sema.IsValidDictionaryKeyType`. -/
def isValidDictionaryKeyType : Ty → Bool
  | .bool | .stringTy | .character | .address | .path | .num _ => true
  | _ => false

/-! ## Import: host value → interpreter value (`importValue` in the excerpt) -/

/-- Source `importPathValue` (convert.go): builds a `PathValue` from the host
path's domain identifier and identifier. -/
def importPathValue (domain identifier : String) : IValue :=
  .pathValue (pathDomainFromIdentifier domain) identifier

/-- Source `importTypeValue` (convert.go): creating a static type performs no
validation, so the imported type is converted to a sema type; if this fails
the import is invalid.  A missing host-side type is likewise invalid. -/
def importTypeValue (env : Env) : Option Ty → Except String IValue
  | some t =>
      if tyResolvable env t then .ok (.typeValue (some t))
      else .error "cannot import type value: invalid type"
  | none => .error "cannot import type value: invalid type"

/-- Source `importCapability` (convert.go): importing a capability requires its
borrow type to be a reference type; on success the imported value carries
the host capability's address, path and borrow type. -/
def importCapability (domain identifier : String) (addr : Nat) (borrowType : Ty) :
    Except String IValue :=
  if borrowType.isReference then
    .ok (.capabilityValue addr (pathDomainFromIdentifier domain) identifier borrowType)
  else
    .error "cannot import capability: expected reference"

/-- The field loop of `importPublicKey` (convert.go): a `publicKey` field
must be an array value, a `signatureAlgorithm` field must be a composite
value, any other field is rejected (later occurrences overwrite earlier
ones, as the Go loop's assignments do). -/
def importPublicKeyLoop :
    List (String × IValue) → Option IValue → Option IValue →
    Except String (Option IValue × Option IValue)
  | [], pk, sa => .ok (pk, sa)
  | (name, v) :: rest, pk, sa =>
      if name = "publicKey" then
        match v with
        | .arrayValue et vs => importPublicKeyLoop rest (some (.arrayValue et vs)) sa
        | _ => .error "cannot import PublicKey: invalid value for field publicKey"
      else if name = "signatureAlgorithm" then
        match v with
        | .compositeValue k l q fs =>
            importPublicKeyLoop rest pk (some (.compositeValue k l q fs))
        | _ => .error "cannot import PublicKey: invalid value for field signatureAlgorithm"
      else
        .error ("cannot import PublicKey: invalid field " ++ name)

/-- Source `importPublicKey` (convert.go): `PublicKey` is constructed via its
dedicated path — both fields must be present.  `NewPublicKeyValue` (not in
the excerpt) is modelled as plain construction of the `PublicKey`
composite; the host validation handler it receives is a host side effect
outside the model. -/
def importPublicKey (fields : List (String × IValue)) : Except String IValue :=
  match importPublicKeyLoop fields none none with
  | .error e => .error e
  | .ok (none, _) => .error "cannot import PublicKey: missing field publicKey"
  | .ok (_, none) => .error "cannot import PublicKey: missing field signatureAlgorithm"
  | .ok (some pk, some sa) =>
      .ok (.compositeValue .structureKind none "PublicKey"
        [("publicKey", pk), ("signatureAlgorithm", sa)])

/-- The field loop shared by `importHashAlgorithm` and
`importSignatureAlgorithm` (convert.go): only a `rawValue` field holding a
`UInt8` is accepted. -/
def importRawValueLoop (tyName : String) :
    List (String × IValue) → Option Int → Except String (Option Int)
  | [], raw => .ok raw
  | (name, v) :: rest, _ =>
      if name = "rawValue" then
        match v with
        | .num .uint8 n => importRawValueLoop tyName rest (some n)
        | _ => .error ("cannot import " ++ tyName ++ ": invalid value for field rawValue")
      else
        .error ("cannot import " ++ tyName ++ ": invalid field " ++ name)

/-- Source `stdlib.NewHashAlgorithmCase` (not in the excerpt), modelled as the
enum-case composite carrying the given `rawValue`. -/
def newHashAlgorithmCase (raw : Int) : IValue :=
  .compositeValue .enumKind none "HashAlgorithm" [("rawValue", .num .uint8 raw)]

/-- Source `stdlib.NewSignatureAlgorithmCase` (not in the excerpt), modelled as
the enum-case composite carrying the given `rawValue`. -/
def newSignatureAlgorithmCase (raw : Int) : IValue :=
  .compositeValue .enumKind none "SignatureAlgorithm" [("rawValue", .num .uint8 raw)]

/-- Source `importHashAlgorithm` (convert.go): requires a `UInt8` `rawValue` field
and builds the enum case through its dedicated constructor. -/
def importHashAlgorithm (fields : List (String × IValue)) : Except String IValue :=
  match importRawValueLoop "HashAlgorithm" fields none with
  | .error e => .error e
  | .ok none => .error "cannot import HashAlgorithm: missing field rawValue"
  | .ok (some raw) => .ok (newHashAlgorithmCase raw)

/-- Source `importSignatureAlgorithm` (convert.go): requires a `UInt8` `rawValue`
field and builds the enum case through its dedicated constructor. -/
def importSignatureAlgorithm (fields : List (String × IValue)) : Except String IValue :=
  match importRawValueLoop "SignatureAlgorithm" fields none with
  | .error e => .error e
  | .ok none => .error "cannot import SignatureAlgorithm: missing field rawValue"
  | .ok (some raw) => .ok (newSignatureAlgorithmCase raw)

/-- The inner expected type of an expected optional type
(`expectedType.(*sema.OptionalType)` in `importOptionalValue`). -/
def expectedOptionalInner : Option Ty → Option Ty
  | some (.optional t) => some t
  | _ => none

/-- The element type of an expected array type
(`expectedType.(sema.ArrayType)` in `importArrayValue`). -/
def expectedArrayElement : Option Ty → Option Ty
  | some (.array t) => some t
  | _ => none

/-- The key/value types of an expected dictionary type
(`expectedType.(*sema.DictionaryType)` in `importDictionaryValue`). -/
def expectedDictTypes : Option Ty → Option (Ty × Ty)
  | some (.dictionary kt vt) => some (kt, vt)
  | _ => none

/-- The tail of `importArrayValue`: the array's static type is the expected
array type when available, otherwise the least common supertype of the
element types (the invalid type is an import error). -/
def finishArrayImport (expectedType : Option Ty) (values : List IValue) :
    Except String IValue :=
  match expectedArrayElement expectedType with
  | some t => .ok (.arrayValue t values)
  | none =>
      match leastCommonSuperType (values.map IValue.staticType) with
      | none => .error "cannot import array: elements do not belong to the same type"
      | some sup => .ok (.arrayValue sup values)

/-- The tail of `importDictionaryValue`: the static type is the expected
dictionary type when available, otherwise computed from least common
supertypes, requiring a valid dictionary key type and a valid value type. -/
def finishDictionaryImport (expectedType : Option Ty)
    (pairs : List (IValue × IValue)) : Except String IValue :=
  match expectedDictTypes expectedType with
  | some (kt, vt) => .ok (.dictValue kt vt pairs)
  | none =>
      match leastCommonSuperType (pairs.map fun p => p.1.staticType) with
      | none => .error "cannot import dictionary: keys does not belong to the same type"
      | some keySuper =>
          if !isValidDictionaryKeyType keySuper then
            .error "cannot import dictionary: keys does not belong to the same type"
          else
            match leastCommonSuperType (pairs.map fun p => p.2.staticType) with
            | none => .error "cannot import dictionary: values does not belong to the same type"
            | some valueSuper => .ok (.dictValue keySuper valueSuper pairs)

mutual

/-- Source `importValue` (convert.go): converts a host (`cadence`) value to an
interpreter value, guided by the optional expected type.  A `cadence.Bytes`
imports as a `UInt8` array (`ByteSliceToByteArrayValue`); the composite
flavours dispatch to `importCompositeValue` with their kind — there is no
case for `cadence.Contract` (or a Go `nil` value), which therefore falls to
the default error. -/
def importValue (env : Env) (expectedType : Option Ty) : CValue → Except String IValue
  | .void => .ok .void
  | .optionalValue v => importOptionalValue env expectedType v
  | .boolValue b => .ok (.boolValue b)
  | .stringValue s => .ok (.stringValue s)
  | .charValue c => .ok (.charValue c)
  | .bytes bs => .ok (.arrayValue (.num .uint8) (bs.map fun b => .num .uint8 (Int.ofNat b)))
  | .address a => .ok (.address a)
  | .num k n => .ok (.num k n)
  | .pathValue d i => .ok (importPathValue d i)
  | .arrayValue _ vs => importArrayValue env expectedType vs
  | .dictValue _ ps => importDictionaryValue env expectedType ps
  | .compositeValue kind loc qid fts vs =>
      match kind with
      | .contractKind => .error "cannot import value of type contract"
      | _ => importCompositeValue env kind loc qid fts vs
  | .typeValue t => importTypeValue env t
  | .capabilityValue d i addr borrow => importCapability d i addr borrow
  | .null => .error "cannot import value"
termination_by v => 2 * sizeOf v

/-- Source `importOptionalValue` (convert.go): `nil` imports as the nil value; an
inner value imports at the expected optional's inner type, when there is
one, and is wrapped in a some-value. -/
def importOptionalValue (env : Env) (expectedType : Option Ty) :
    Option CValue → Except String IValue
  | none => .ok .nilValue
  | some inner =>
      match importValue env (expectedOptionalInner expectedType) inner with
      | .error e => .error e
      | .ok iv => .ok (.someValue iv)
termination_by o => 2 * sizeOf o + 1

/-- Source `importArrayValue` (convert.go): elements import at the expected
array's element type; then `finishArrayImport` picks the static type. -/
def importArrayValue (env : Env) (expectedType : Option Ty) (vs : List CValue) :
    Except String IValue :=
  match importList env (expectedArrayElement expectedType) vs with
  | .error e => .error e
  | .ok values => finishArrayImport expectedType values
termination_by 2 * sizeOf vs + 1

/-- Source `importDictionaryValue` (convert.go): pairs import at the expected
dictionary's key/value types; then `finishDictionaryImport` picks the
static type. -/
def importDictionaryValue (env : Env) (expectedType : Option Ty)
    (ps : List (CValue × CValue)) : Except String IValue :=
  match importPairs env ((expectedDictTypes expectedType).map Prod.fst)
      ((expectedDictTypes expectedType).map Prod.snd) ps with
  | .error e => .error e
  | .ok pairs => finishDictionaryImport expectedType pairs
termination_by 2 * sizeOf ps + 1

/-- Source `importCompositeValue` (convert.go): resolve the composite type, import
the fields pairwise (taking each expected field type from the resolved
type's members, when declared), then: a `nil`-location composite succeeds
only through the dedicated constructors of `PublicKey`, `HashAlgorithm` and
`SignatureAlgorithm` (any other identifier is an error), and a located
composite becomes a composite value of the given kind. -/
def importCompositeValue (env : Env) (kind : CompositeKind) (location : Option String)
    (qid : String) (fieldTypes : List (String × Ty)) (fieldValues : List CValue) :
    Except String IValue :=
  match getCompositeType env location qid with
  | .error e => .error e
  | .ok info =>
      match importFields env info.fields fieldTypes fieldValues with
      | .error e => .error e
      | .ok fields =>
          match location with
          | none =>
              match qid with
              | "PublicKey" => importPublicKey fields
              | "HashAlgorithm" => importHashAlgorithm fields
              | "SignatureAlgorithm" => importSignatureAlgorithm fields
              | _ => .error ("cannot import value of type " ++ qid)
          | some _ => .ok (.compositeValue kind location qid fields)
termination_by 2 * sizeOf fieldValues + 1

/-- The field loop of `importCompositeValue`: pairs field types with field
values up to the shorter of the two lists, importing each value at the
member's declared type when the member exists. -/
def importFields (env : Env) (members : List (String × Ty)) :
    List (String × Ty) → List CValue → Except String (List (String × IValue))
  | ft :: fts, v :: vs =>
      match importValue env (members.lookup ft.1) v with
      | .error e => .error e
      | .ok iv =>
          match importFields env members fts vs with
          | .error e => .error e
          | .ok rest => .ok ((ft.1, iv) :: rest)
  | _, _ => .ok []
termination_by _ vs => 2 * sizeOf vs

/-- Element loop of `importArrayValue`. -/
def importList (env : Env) (elementType : Option Ty) :
    List CValue → Except String (List IValue)
  | [] => .ok []
  | v :: vs =>
      match importValue env elementType v with
      | .error e => .error e
      | .ok iv =>
          match importList env elementType vs with
          | .error e => .error e
          | .ok rest => .ok (iv :: rest)
termination_by vs => 2 * sizeOf vs

/-- Pair loop of `importDictionaryValue`. -/
def importPairs (env : Env) (keyType valueType : Option Ty) :
    List (CValue × CValue) → Except String (List (IValue × IValue))
  | [] => .ok []
  | (k, v) :: rest =>
      match importValue env keyType k with
      | .error e => .error e
      | .ok ik =>
          match importValue env valueType v with
          | .error e => .error e
          | .ok iv =>
              match importPairs env keyType valueType rest with
              | .error e => .error e
              | .ok irest => .ok ((ik, iv) :: irest)
termination_by ps => 2 * sizeOf ps

end

/-! ## Export: interpreter value → host value (`exportValueWithInterpreter`) -/

mutual

/-- A value contains no (ephemeral or storage) references.  Storable values
are reference-free (§3.2: references are non-owning and ephemeral
references are invalidated at execution end; only storable values persist).
-/
def refFree : IValue → Bool
  | .someValue v => refFree v
  | .arrayValue _ vs => refFreeList vs
  | .dictValue _ _ ps => refFreePairs ps
  | .compositeValue _ _ _ fields => refFreeFields fields
  | .ephemeralRef _ _ _ => false
  | .storageRef _ _ _ _ _ => false
  | _ => true
termination_by v => sizeOf v

def refFreeList : List IValue → Bool
  | [] => true
  | v :: vs => refFree v && refFreeList vs
termination_by vs => sizeOf vs

def refFreePairs : List (IValue × IValue) → Bool
  | [] => true
  | (k, v) :: ps => refFree k && refFree v && refFreePairs ps
termination_by ps => sizeOf ps

def refFreeFields : List (String × IValue) → Bool
  | [] => true
  | (_, v) :: fs => refFree v && refFreeFields fs
termination_by fs => sizeOf fs

end

/-- Termination measure component: 0 for reference-free values. -/
def exportFlag (v : IValue) : Nat := if refFree v then 0 else 1

/-- Termination measure component for lists. -/
def exportFlagList (vs : List IValue) : Nat := if refFreeList vs then 0 else 1

/-- Termination measure component for pair lists. -/
def exportFlagPairs (ps : List (IValue × IValue)) : Nat := if refFreePairs ps then 0 else 1

/-- Termination measure component for field lists. -/
def exportFlagFields (fs : List (String × IValue)) : Nat := if refFreeFields fs then 0 else 1

/-- Termination measure component: the number of reference-heap entries not
yet recorded in the seen-references set. -/
def unseenCount (env : Env) (seen : List Nat) : Nat :=
  (env.refHeap.filter fun p => !seen.contains p.1).length

/-- Wrap an exported inner value in a host optional: a Go `nil`
`cadence.Value` (an exported broken cycle) becomes the absent value. -/
def wrapOptional : CValue → CValue
  | .null => .optionalValue none
  | c => .optionalValue (some c)

/-! ### Termination facts for the export recursion -/

theorem length_filter_le_of_imp {α : Type} (l : List α) (p q : α → Bool)
    (h : ∀ a, p a = true → q a = true) :
    (l.filter p).length ≤ (l.filter q).length := by
  induction l with
  | nil => simp
  | cons a l ih =>
      by_cases hp : p a = true
      · have hq := h a hp
        simp only [List.filter_cons, hp, hq, if_true]
        simpa using ih
      · simp only [List.filter_cons, hp, if_false, Bool.false_eq_true]
        by_cases hq : q a = true
        · simp only [hq, if_true]
          exact Nat.le_succ_of_le ih
        · simp only [hq, if_false, Bool.false_eq_true]
          exact ih

theorem filter_insert_lt {β : Type} (seen : List Nat) (id : Nat)
    (hs : seen.contains id = false) :
    ∀ (l : List (Nat × β)) (target : β), l.lookup id = some target →
      (l.filter fun p => !(id :: seen).contains p.1).length <
      (l.filter fun p => !seen.contains p.1).length := by
  intro l
  induction l with
  | nil => intro target h; simp [List.lookup] at h
  | cons hd tl ih =>
      intro target h
      rcases hd with ⟨k, w⟩
      simp only [List.lookup] at h
      by_cases hk : id = k
      · subst hk
        have hnew : (!(id :: seen).contains (id, w).1) = false := by
          show (!(id :: seen).contains id) = false
          simp [List.contains_cons]
        have hold : (!seen.contains (id, w).1) = true := by
          show (!seen.contains id) = true
          rw [hs]
          rfl
        simp only [List.filter_cons, hnew, hold, if_true, if_false, Bool.false_eq_true]
        have hle := length_filter_le_of_imp tl
          (fun p => !(id :: seen).contains p.1) (fun p => !seen.contains p.1)
          (by
            intro a ha
            simp only [Bool.not_eq_true', List.contains_cons, Bool.or_eq_false_iff] at ha ⊢
            exact ha.2)
        simpa using Nat.lt_succ_of_le hle
      · have hbeq : (id == k) = false := by simp [hk]
        rw [hbeq] at h
        have hsame : ((id :: seen).contains k) = (seen.contains k) := by
          simp [List.contains_cons, Ne.symm hk]
        simp only [List.filter_cons, hsame]
        by_cases hkk : (!seen.contains k) = true
        · simp only [hkk, if_true, List.length_cons]
          exact Nat.succ_lt_succ (ih target h)
        · simp only [hkk, if_false, Bool.false_eq_true]
          exact ih target h

/-- Discharge a four-component lexicographic goal from linear facts. -/
theorem lex4_of (a₁ a₂ b₁ b₂ c₁ c₂ d₁ d₂ : Nat)
    (h : a₁ < a₂ ∨ (a₁ = a₂ ∧ (b₁ < b₂ ∨ (b₁ = b₂ ∧ (c₁ < c₂ ∨ (c₁ = c₂ ∧ d₁ < d₂)))))) :
    Prod.Lex (· < ·) (Prod.Lex (· < ·) (Prod.Lex (· < ·) (· < ·)))
      (a₁, b₁, c₁, d₁) (a₂, b₂, c₂, d₂) := by
  rcases h with h | ⟨rfl, h⟩
  · exact Prod.Lex.left _ _ h
  rcases h with h | ⟨rfl, h⟩
  · exact Prod.Lex.right _ (Prod.Lex.left _ _ h)
  rcases h with h | ⟨rfl, h⟩
  · exact Prod.Lex.right _ (Prod.Lex.right _ (Prod.Lex.left _ _ h))
  · exact Prod.Lex.right _ (Prod.Lex.right _ (Prod.Lex.right _ h))

/-- Recording an id that is present in the reference heap and not yet seen
strictly decreases the number of unseen heap entries. -/
theorem unseenCount_insert_lt (env : Env) (seen : List Nat) (id : Nat) (target : IValue)
    (hl : env.refHeap.lookup id = some target) (hs : seen.contains id = false) :
    unseenCount env (id :: seen) < unseenCount env seen := by
  unfold unseenCount
  exact filter_insert_lt seen id hs env.refHeap target hl

/-- A field looked up in a field list is smaller than the list. -/
theorem sizeOf_lookup_lt {β : Type} [SizeOf β] (l : List (String × β)) (n : String) (v : β)
    (h : l.lookup n = some v) : sizeOf v < sizeOf l := by
  induction l with
  | nil => simp [List.lookup] at h
  | cons hd tl ih =>
      rcases hd with ⟨k, w⟩
      simp only [List.lookup] at h
      by_cases hk : (n == k) = true
      · rw [hk] at h
        have : w = v := by simpa using h
        subst this
        simp
        omega
      · rw [Bool.not_eq_true] at hk
        rw [hk] at h
        have := ih h
        simp
        omega

/-- A field looked up in a reference-free field list is reference-free. -/
theorem refFree_lookup (fields : List (String × IValue)) (n : String) (v : IValue)
    (hf : refFreeFields fields = true) (h : fields.lookup n = some v) : refFree v = true := by
  induction fields with
  | nil => simp [List.lookup] at h
  | cons hd tl ih =>
      rcases hd with ⟨k, w⟩
      simp only [refFreeFields, Bool.and_eq_true] at hf
      simp only [List.lookup] at h
      by_cases hk : (n == k) = true
      · rw [hk] at h
        have : w = v := by simpa using h
        subst this
        exact hf.1
      · rw [Bool.not_eq_true] at hk
        rw [hk] at h
        exact ih hf.2 h

mutual

/-- Source `exportValueWithInterpreter` (convert.go): exports an interpreter value
to a host value.  The export is recursive; the seen-references set prevents
cycles: it is checked at the start for ephemeral references and pre-set
before the recursive call (the Go code's `defer delete` restores the set
after the subtree, which passing `seen` functionally models).  A storage
reference is dereferenced once through the storage layer, and an absent
target exports as `nil` (`null` here).  Stored values are storable and
hence reference-free; the model makes that system invariant explicit with a
`refFree` guard on the dereferenced value. -/
def exportValueWithInterpreter (env : Env) (seen : List Nat) :
    IValue → Except String CValue
  | .void => .ok .void
  | .nilValue => .ok (.optionalValue none)
  | .someValue v =>
      match exportValueWithInterpreter env seen v with
      | .error e => .error e
      | .ok c => .ok (wrapOptional c)
  | .boolValue b => .ok (.boolValue b)
  | .stringValue s => .ok (.stringValue s)
  | .charValue c => .ok (.charValue c)
  | .num k n => .ok (.num k n)
  | .address a => .ok (.address a)
  | .pathValue d i => .ok (.pathValue d.identifier i)
  | .arrayValue t vs =>
      match exportList env seen vs with
      | .error e => .error e
      | .ok cs => .ok (.arrayValue (some (.array t)) cs)
  | .dictValue kt vt ps =>
      match exportPairs env seen ps with
      | .error e => .error e
      | .ok cps => .ok (.dictValue (some (kt, vt)) cps)
  | .compositeValue _ loc qid fields =>
      match getCompositeType env loc qid with
      | .error e => .error e
      | .ok info =>
          match exportFields env seen fields (info.fields.map Prod.fst) with
          | .error e => .error e
          | .ok vals => .ok (.compositeValue info.kind loc qid info.fields vals)
  | .typeValue t =>
      match t with
      | none => .ok (.typeValue none)
      | some ty =>
          if tyResolvable env ty then .ok (.typeValue (some ty))
          else .error "cannot convert static type"
  | .capabilityValue addr d i borrow =>
      if tyResolvable env borrow then .ok (.capabilityValue d.identifier i addr borrow)
      else .error "cannot convert static type"
  | .ephemeralRef _ _ id =>
      if hseen : seen.contains id then .ok .null
      else
        match hlook : env.refHeap.lookup id with
        | none => .error "missing ephemeral reference target"
        | some target => exportValueWithInterpreter env (id :: seen) target
  | .storageRef _ addr d i _ =>
      match env.storage.lookup (addr, d, i) with
      | none => .ok .null
      | some sv =>
          if hsv : refFree sv then exportValueWithInterpreter env seen sv
          else .error "non-storable value in storage"
termination_by v => (unseenCount env seen, exportFlag v, sizeOf v, 0)
decreasing_by
all_goals simp_wf
· have h1 : exportFlag v.someValue = exportFlag v := by simp [exportFlag, refFree]
  apply lex4_of; omega
· rename_i vs
  have h1 : exportFlag (IValue.arrayValue t vs) = exportFlagList vs := by
    simp [exportFlag, exportFlagList, refFree]
  apply lex4_of; omega
· rename_i ps
  have h1 : exportFlag (IValue.dictValue kt vt ps) = exportFlagPairs ps := by
    simp [exportFlag, exportFlagPairs, refFree]
  apply lex4_of; omega
· rename_i fields
  have h1 : exportFlag (IValue.compositeValue kind loc qid fields) = exportFlagFields fields := by
    simp [exportFlag, exportFlagFields, refFree]
  apply lex4_of; omega
· rename_i id
  have h1 : seen.contains id = false := by simpa using hseen
  have h2 := unseenCount_insert_lt env seen id target hlook h1
  apply lex4_of; omega
· rename_i addr d i
  have h1 : exportFlag sv = 0 := by simp [exportFlag, hsv]
  have h2 : exportFlag (IValue.storageRef auth addr d i borrow) = 1 := by
    simp [exportFlag, refFree]
  apply lex4_of; omega

/-- Element loop of the array export (`v.Iterate` in `exportArrayValue`). -/
def exportList (env : Env) (seen : List Nat) : List IValue → Except String (List CValue)
  | [] => .ok []
  | v :: vs =>
      match exportValueWithInterpreter env seen v with
      | .error e => .error e
      | .ok c =>
          match exportList env seen vs with
          | .error e => .error e
          | .ok cs => .ok (c :: cs)
termination_by vs => (unseenCount env seen, exportFlagList vs, sizeOf vs, 0)
decreasing_by
all_goals simp_wf
· have h1 : exportFlag v ≤ exportFlagList (v :: vs) := by
    simp only [exportFlag, exportFlagList, refFreeList]
    by_cases hv : refFree v <;> simp [hv]
  apply lex4_of; omega
· have h1 : exportFlagList vs ≤ exportFlagList (v :: vs) := by
    simp only [exportFlagList, refFreeList]
    by_cases hv : refFree v <;> by_cases hvs : refFreeList vs <;> simp [hv, hvs]
  apply lex4_of; omega

/-- Pair loop of the dictionary export (`v.Iterate` in
`exportDictionaryValue`); iteration order is insertion order. -/
def exportPairs (env : Env) (seen : List Nat) :
    List (IValue × IValue) → Except String (List (CValue × CValue))
  | [] => .ok []
  | (k, v) :: ps =>
      match exportValueWithInterpreter env seen k with
      | .error e => .error e
      | .ok ck =>
          match exportValueWithInterpreter env seen v with
          | .error e => .error e
          | .ok cv =>
              match exportPairs env seen ps with
              | .error e => .error e
              | .ok cps => .ok ((ck, cv) :: cps)
termination_by ps => (unseenCount env seen, exportFlagPairs ps, sizeOf ps, 0)
decreasing_by
all_goals simp_wf
· have h1 : exportFlag k ≤ exportFlagPairs ((k, v) :: ps) := by
    simp only [exportFlag, exportFlagPairs, refFreePairs]
    by_cases hk : refFree k <;> simp [hk]
  apply lex4_of; omega
· have h1 : exportFlag v ≤ exportFlagPairs ((k, v) :: ps) := by
    simp only [exportFlag, exportFlagPairs, refFreePairs]
    by_cases hv : refFree v <;> simp [hv]
  apply lex4_of; omega
· have h1 : exportFlagPairs ps ≤ exportFlagPairs ((k, v) :: ps) := by
    simp only [exportFlagPairs, refFreePairs]
    by_cases hk : refFree k <;> by_cases hv : refFree v <;>
      by_cases hps : refFreePairs ps <;> simp [hk, hv, hps]
  apply lex4_of; omega

/-- Field loop of the composite export: the exported type's field names are
walked in declared order and each field is read from the value
(`v.GetField`); a missing field (with no computed fields in the model) is
the Go export of a `nil` value, an error. -/
def exportFields (env : Env) (seen : List Nat) (fields : List (String × IValue)) :
    List String → Except String (List CValue)
  | [] => .ok []
  | n :: ns =>
      match hlk : fields.lookup n with
      | none => .error "cannot export value: missing field"
      | some v =>
          match exportValueWithInterpreter env seen v with
          | .error e => .error e
          | .ok c =>
              match exportFields env seen fields ns with
              | .error e => .error e
              | .ok cs => .ok (c :: cs)
termination_by ns => (unseenCount env seen, exportFlagFields fields, sizeOf fields, ns.length)
decreasing_by
all_goals simp_wf
· have h1 : exportFlag v ≤ exportFlagFields fields := by
    by_cases hf : refFreeFields fields
    · have h2 := refFree_lookup fields n v hf hlk
      simp [exportFlag, exportFlagFields, hf, h2]
    · have h3 : exportFlagFields fields = 1 := by
        simp [exportFlagFields, hf]
      rw [h3]
      unfold exportFlag
      split <;> omega
  have h4 := sizeOf_lookup_lt fields n v hlk
  apply lex4_of; omega
· exact lex4_of _ _ _ _ _ _ _ _
    (Or.inr ⟨rfl, Or.inr ⟨rfl, Or.inr ⟨rfl, Nat.lt_succ_self _⟩⟩⟩)

end

/-! ## Checker model: access control and the external-mutation rule -/

/-- Access modifiers of field declarations: `pub`, `access(account)`,
`access(contract)`, `priv`. -/
inductive Access where
  | pubAccess
  | accountAccess
  | contractAccess
  | privAccess
deriving DecidableEq, Repr

/-- Field declaration kinds: `let` or `var`. -/
inductive DeclKind where
  | letKind
  | varKind
deriving DecidableEq, Repr

/-- A field declaration of a composite: name, access modifier, declaration
kind, type. -/
structure FieldDecl where
  name : String
  access : Access
  declKind : DeclKind
  ty : Ty
deriving DecidableEq, Repr

/-- A composite declaration: name, kind, the contract whose declaration
encloses it (a contract's own name for a contract itself), and its
fields. -/
structure CompDecl where
  name : String
  kind : CompositeKind
  inContract : Option String
  fields : List FieldDecl
deriving DecidableEq, Repr

/-- Assignable expressions — the target shapes the checker's
external-mutation tests exercise. -/
inductive Expr where
  | selfExpr
  | ident (n : String)
  | member (base : Expr) (field : String)
  | index (base : Expr) (i : Int)
deriving DecidableEq, Repr

/-- Statements: local declarations and assignments.  (Other statement
forms, e.g. `destroy`, do not interact with the external-mutation rule and
are omitted.) -/
inductive Stmt where
  | localDecl (n : String) (ty : Ty)
  | assign (target : Expr)
deriving DecidableEq, Repr

/-- A function body to check: the composite whose body it belongs to (its
`self` type), the contract enclosing the code, and the statements. -/
structure FunDecl where
  selfComposite : Option String
  inContract : Option String
  body : List Stmt
deriving DecidableEq, Repr

/-- A program for the checker model: composite declarations plus function
bodies (composite initializers are listed as functions of their
composite). -/
structure Program where
  composites : List CompDecl
  funs : List FunDecl
deriving DecidableEq, Repr

/-- Checker error kinds relevant to the claims
(`sema.ExternalMutationError`, `sema.InvalidAccessError`). -/
inductive CheckError where
  | externalMutation
  | invalidAccess
deriving DecidableEq, Repr

/-- Look up a composite declaration by name. -/
def lookupComp (P : Program) (n : String) : Option CompDecl :=
  P.composites.find? fun c => c.name == n

/-- Look up a field declaration by name. -/
def CompDecl.fieldNamed (c : CompDecl) (f : String) : Option FieldDecl :=
  c.fields.find? fun fd => fd.name == f

/-- The location of checker test programs (`TestLocation`). -/
def testLocation : Option String := some "test"

/-- Modelled from the spec (§4.2 item 2): the elaborated type of an
assignable expression, given the composite whose body is being checked and
the local variable typing.  A bare identifier is a local variable or a
contract name (the contract value). -/
def inferTy (P : Program) (selfComposite : Option String)
    (locals : List (String × Ty)) : Expr → Option Ty
  | .selfExpr =>
      match selfComposite with
      | some n =>
          match lookupComp P n with
          | some c => some (.composite c.kind testLocation c.name)
          | none => none
      | none => none
  | .ident n =>
      match locals.lookup n with
      | some t => some t
      | none =>
          match lookupComp P n with
          | some c =>
              if c.kind = CompositeKind.contractKind then
                some (.composite .contractKind testLocation c.name)
              else none
          | none => none
  | .member b f =>
      match inferTy P selfComposite locals b with
      | some (.composite _ _ cname) =>
          match lookupComp P cname with
          | some c =>
              match c.fieldNamed f with
              | some fd => some fd.ty
              | none => none
          | none => none
      | _ => none
  | .index b _ =>
      match inferTy P selfComposite locals b with
      | some (.array t) => some t
      | some (.dictionary _ vt) => some vt
      | _ => none

/-- Modelled from the spec (§4.2 item 4, §3.3 invariant 4): whether a
member read is permitted.  `pub` is always readable; `access(account)` is
readable within the same account (the checker tests use a single account);
`access(contract)` is readable only from code enclosed in the composite's
contract; `priv` only through `self`. -/
def readAllowed (ctxContract : Option String) (owner : CompDecl) (fd : FieldDecl)
    (baseIsSelf : Bool) : Bool :=
  match fd.access with
  | .pubAccess => true
  | .accountAccess => true
  | .contractAccess => decide (ctxContract = owner.inContract)
  | .privAccess => baseIsSelf

/-- Access errors raised while reading through the base chain of an
assignment target (`sema.InvalidAccessError`). -/
def readAccessErrors (P : Program) (selfComposite ctxContract : Option String)
    (locals : List (String × Ty)) : Expr → List CheckError
  | .selfExpr => []
  | .ident _ => []
  | .member b f =>
      readAccessErrors P selfComposite ctxContract locals b ++
      (match inferTy P selfComposite locals b with
       | some (.composite _ _ cname) =>
           match lookupComp P cname with
           | some c =>
               match c.fieldNamed f with
               | some fd =>
                   if readAllowed ctxContract c fd (decide (b = Expr.selfExpr)) then []
                   else [CheckError.invalidAccess]
               | none => []
           | none => []
       | _ => [])
  | .index b _ => readAccessErrors P selfComposite ctxContract locals b

/-- Modelled from the spec (§4.2 item 4: "Index-assign to a composite-owned
container from outside its access scope is an external mutation error; this
applies recursively through nested field accesses"): an index-assignment
whose indexed expression is a member access of a composite's
container-typed field is permitted only when the member is read directly
off `self`; any other base — a local, a contract value, or a nested member
chain (including `self.x.y`) — is an external mutation. -/
def externalMutationErrors (P : Program) (selfComposite : Option String)
    (locals : List (String × Ty)) : Expr → List CheckError
  | .index (.member b f) _ =>
      (match inferTy P selfComposite locals (.member b f) with
       | some (.array _) => if b = Expr.selfExpr then [] else [CheckError.externalMutation]
       | some (.dictionary _ _) => if b = Expr.selfExpr then [] else [CheckError.externalMutation]
       | _ => [])
  | _ => []

/-- Errors of a single statement.  Only index-assignments are access- and
mutation-checked; a direct member assignment in the tests is always a write
to a field of `self` inside an initializer, which is permitted. -/
def checkStmt (P : Program) (selfComposite ctxContract : Option String)
    (locals : List (String × Ty)) : Stmt → List CheckError
  | .localDecl _ _ => []
  | .assign target =>
      match target with
      | .index b i =>
          readAccessErrors P selfComposite ctxContract locals (.index b i) ++
          externalMutationErrors P selfComposite locals (.index b i)
      | _ => []

/-- Check a body, threading local declarations. -/
def checkBody (P : Program) (selfComposite ctxContract : Option String) :
    List (String × Ty) → List Stmt → List CheckError
  | _, [] => []
  | locals, s :: rest =>
      checkStmt P selfComposite ctxContract locals s ++
      (match s with
       | .localDecl n t => checkBody P selfComposite ctxContract ((n, t) :: locals) rest
       | _ => checkBody P selfComposite ctxContract locals rest)

/-- Check a function body in its declaration context. -/
def checkFun (P : Program) (f : FunDecl) : List CheckError :=
  checkBody P f.selfComposite f.inContract [] f.body

/-- All checker errors of a program. -/
def checkProgram (P : Program) : List CheckError :=
  (P.funs.map (checkFun P)).flatten

/-! ### The checker test programs -/

/-- Source `TestArrayUpdateIndexAccess` / `TestDictionaryUpdateIndexAccess`: a
contract `C` with a nested struct or resource `Foo` holding a container
field `x : containerTy`, and a contract function `bar` that constructs a
`Foo` and assigns `foo.x[0] = 3`. -/
def progUpdateIndexAccess (containerTy : Ty) (access : Access) (declKind : DeclKind)
    (valueKind : CompositeKind) : Program where
  composites := [
    ⟨"C", .contractKind, some "C", []⟩,
    ⟨"Foo", valueKind, some "C", [⟨"x", access, declKind, containerTy⟩]⟩]
  funs := [
    ⟨some "Foo", some "C", [.assign (.member .selfExpr "x")]⟩,
    ⟨some "C", some "C",
      [.localDecl "foo" (.composite valueKind testLocation "Foo"),
       .assign (.index (.member (.ident "foo") "x") 0)]⟩]

/-- Source `TestNestedArrayUpdateIndexAccess` / `TestNestedDictionaryUpdateIndexAccess`:
`bar.foo.x[0] = 3` through a nested field access. -/
def progNestedUpdateIndexAccess (containerTy : Ty) (access : Access)
    (declKind : DeclKind) : Program where
  composites := [
    ⟨"C", .contractKind, some "C", []⟩,
    ⟨"Bar", .structureKind, some "C",
      [⟨"foo", .pubAccess, .letKind, .composite .structureKind testLocation "Foo"⟩]⟩,
    ⟨"Foo", .structureKind, some "C", [⟨"x", access, declKind, containerTy⟩]⟩]
  funs := [
    ⟨some "Bar", some "C", [.assign (.member .selfExpr "foo")]⟩,
    ⟨some "Foo", some "C", [.assign (.member .selfExpr "x")]⟩,
    ⟨some "C", some "C",
      [.localDecl "bar" (.composite .structureKind testLocation "Bar"),
       .assign (.index (.member (.member (.ident "bar") "foo") "x") 0)]⟩]

/-- Source `TestMutateContractIndexAccess`: a top-level function outside contract
`Foo` assigns `Foo.x[0] = 1` to the contract's container field. -/
def progMutateContractIndexAccess (access : Access) (declKind : DeclKind) : Program where
  composites := [
    ⟨"Foo", .contractKind, some "Foo", [⟨"x", access, declKind, .array (.num .int)⟩]⟩]
  funs := [
    ⟨some "Foo", some "Foo", [.assign (.member .selfExpr "x")]⟩,
    ⟨none, none, [.assign (.index (.member (.ident "Foo") "x") 0)]⟩]

/-- Source `TestContractNestedStructIndexAccess`: a top-level function assigns
`Foo.x.y[0] = 1` through the contract's struct-typed field. -/
def progContractNestedStructIndexAccess (access : Access) (declKind : DeclKind) :
    Program where
  composites := [
    ⟨"Foo", .contractKind, some "Foo",
      [⟨"x", .pubAccess, .letKind, .composite .structureKind testLocation "S"⟩]⟩,
    ⟨"S", .structureKind, some "Foo", [⟨"y", access, declKind, .array (.num .int)⟩]⟩]
  funs := [
    ⟨some "S", some "Foo", [.assign (.member .selfExpr "y")]⟩,
    ⟨some "Foo", some "Foo", [.assign (.member .selfExpr "x")]⟩,
    ⟨none, none, [.assign (.index (.member (.member (.ident "Foo") "x") "y") 0)]⟩]

/-- Source `TestContractStructInitIndexAccess`: the contract's own initializer
runs `self.x = S(); self.x.y[1] = 2`, mutating the inner struct's container
field through a nested field access. -/
def progContractStructInitIndexAccess (access : Access) (declKind : DeclKind) :
    Program where
  composites := [
    ⟨"Foo", .contractKind, some "Foo",
      [⟨"x", .pubAccess, .letKind, .composite .structureKind testLocation "S"⟩]⟩,
    ⟨"S", .structureKind, some "Foo", [⟨"y", access, declKind, .array (.num .int)⟩]⟩]
  funs := [
    ⟨some "S", some "Foo", [.assign (.member .selfExpr "y")]⟩,
    ⟨some "Foo", some "Foo",
      [.assign (.member .selfExpr "x"),
       .assign (.index (.member (.member .selfExpr "x") "y") 1)]⟩]

/-! ## The import-supported subset (round-trip law R1) -/

/-- A host path-domain identifier that names a real domain. -/
def validDomainIdent (d : String) : Bool :=
  d == "storage" || d == "private" || d == "public"

/-- Source `ExportValue` (convert.go): export with an empty seen-references set. -/
def ExportValue (env : Env) (v : IValue) : Except String CValue :=
  exportValueWithInterpreter env [] v

/-- The import-supported subset of host values, at an expected type — the
set the spec's round-trip law R1 quantifies over: values whose import
succeeds and whose shape and attached type information agree with the
expected type (import ignores attached container types, so round-tripping
requires them to match).  Concretely: composites must carry a location,
resolve to a declared composite type, list exactly the declared fields in
declared order (with distinct names), and not be of contract kind (there is
no `cadence.Contract` import case); capabilities must carry reference
borrow types; paths must name a real domain; meta-types must hold
resolvable types.  `cadence.Bytes` is excluded: it imports as a `UInt8`
array, which does not export back to `cadence.Bytes`. -/
inductive Supported (env : Env) : Ty → CValue → Prop
  | voidS : Supported env .void .void
  | optNone (t : Ty) : Supported env (.optional t) (.optionalValue none)
  | optSome {t : Ty} {v : CValue} :
      Supported env t v → Supported env (.optional t) (.optionalValue (some v))
  | boolS (b : Bool) : Supported env .bool (.boolValue b)
  | stringS (s : String) : Supported env .stringTy (.stringValue s)
  | charS (s : String) : Supported env .character (.charValue s)
  | numS (k : NumKind) (n : Int) : Supported env (.num k) (.num k n)
  | addressS (a : Nat) : Supported env .address (.address a)
  | pathS {d : String} (i : String) :
      validDomainIdent d = true → Supported env .path (.pathValue d i)
  | arrayS {t : Ty} {vs : List CValue} :
      (∀ v ∈ vs, Supported env t v) →
      Supported env (.array t) (.arrayValue (some (.array t)) vs)
  | dictS {kt vt : Ty} {ps : List (CValue × CValue)} :
      (∀ p ∈ ps, Supported env kt p.1) →
      (∀ p ∈ ps, Supported env vt p.2) →
      Supported env (.dictionary kt vt) (.dictValue (some (kt, vt)) ps)
  | compositeS {kind : CompositeKind} {l qid : String} {info : CompositeInfo}
      {vs : List CValue} :
      getCompositeType env (some l) qid = .ok info →
      info.kind = kind →
      kind ≠ CompositeKind.contractKind →
      (info.fields.map Prod.fst).Nodup →
      vs.length = info.fields.length →
      (∀ p ∈ info.fields.zip vs, Supported env p.1.2 p.2) →
      Supported env (.composite kind (some l) qid)
        (.compositeValue kind (some l) qid info.fields vs)
  | typeS {t : Ty} : tyResolvable env t = true →
      Supported env .meta (.typeValue (some t))
  | capabilityS {d : String} (i : String) (addr : Nat) {auth : Bool} {bt : Ty} :
      validDomainIdent d = true →
      tyResolvable env (.reference auth bt) = true →
      Supported env (.capability (.reference auth bt))
        (.capabilityValue d i addr (.reference auth bt))

/-! ## General lemmas and claim theorems -/

/-- The subtype relation is reflexive. -/
theorem isSubType_refl (t : Ty) : isSubType t t = true := by
  induction t with
  | optional s ih => simpa [isSubType] using ih
  | reference a s ih => cases a <;> simp [isSubType, ih]
  | anyStruct => simp [isSubType, Ty.isResource]
  | anyResource => simp [isSubType, Ty.isResource]
  | _ => simp [isSubType]

/-- A resource type is never a subtype of a non-resource type: the two
hierarchies never cross in this direction. -/
theorem resource_not_subtype_of_nonresource :
    ∀ b a : Ty, a.isResource = true → b.isResource = false → isSubType a b = false := by
  intro b
  induction b with
  | optional u ih =>
      intro a ha hb
      have hu : u.isResource = false := by simpa [Ty.isResource] using hb
      cases a <;> simp_all [isSubType, Ty.isResource]
  | anyResource =>
      intro a ha hb
      simp [Ty.isResource] at hb
  | _ =>
      intro a ha hb
      cases a <;> simp_all [isSubType, Ty.isResource] <;>
        first
          | (rintro rfl; simp_all [Ty.isResource])
          | (rintro rfl rfl; simp_all [Ty.isResource])

/-- A non-resource type that does not mention `Never` is never a subtype of
a resource type: the two hierarchies never cross in this direction either
(`Never`, being uninhabited, is a subtype of every type, so it — and types
containing it — must be excluded). -/
theorem nonresource_not_subtype_of_resource :
    ∀ b a : Ty, a.isResource = false → a.mentionsNever = false → b.isResource = true →
      isSubType a b = false := by
  intro b
  induction b with
  | optional u ih =>
      intro a ha hn hb
      have hu : u.isResource = true := by simpa [Ty.isResource] using hb
      cases a <;> simp_all [isSubType, Ty.isResource, Ty.mentionsNever]
  | anyResource =>
      intro a ha hn hb
      cases a <;> simp_all [isSubType, Ty.isResource, Ty.mentionsNever]
  | _ =>
      intro a ha hn hb
      cases a <;> simp_all [isSubType, Ty.isResource, Ty.mentionsNever] <;>
        first
          | (rintro rfl; simp_all [Ty.isResource])
          | (rintro rfl rfl; simp_all [Ty.isResource])

/-! ### Round-trip lemmas for the value bridge -/


/-- No supported value is the Go-nil marker. -/
theorem Supported.ne_null {env : Env} {t : Ty} {v : CValue}
    (h : Supported env t v) : v ≠ CValue.null := by
  cases h <;> intro hc <;> cases hc

/-- Wrapping a non-nil exported value yields a present optional. -/
theorem wrapOptional_of_ne_null {v : CValue} (h : v ≠ CValue.null) :
    wrapOptional v = .optionalValue (some v) := by
  cases v <;> simp [wrapOptional] <;> exact absurd rfl h

/-- The domain identifier round-trips through `pathDomainFromIdentifier`
for real domains. -/
theorem domainIdent_roundtrip {d : String} (h : validDomainIdent d = true) :
    (pathDomainFromIdentifier d).identifier = d := by
  simp only [validDomainIdent, Bool.or_eq_true, beq_iff_eq] at h
  rcases h with (h | h) | h <;> subst h <;> rfl

/-- Element-wise round trips lift to `importList` / `exportList`. -/
theorem importList_roundtrip (env : Env) (et : Option Ty) :
    ∀ vs : List CValue,
      (∀ v ∈ vs, ∃ iv, importValue env et v = .ok iv ∧
         exportValueWithInterpreter env [] iv = .ok v) →
      ∃ ivs, importList env et vs = .ok ivs ∧
        exportList env [] ivs = .ok vs := by
  intro vs
  induction vs with
  | nil => exact fun _ => ⟨[], by simp [importList], by simp [exportList]⟩
  | cons v rest ih =>
      intro h
      obtain ⟨iv, hi, he⟩ := h v (by simp)
      obtain ⟨ivs, hi2, he2⟩ := ih fun w hw => h w (by simp [hw])
      exact ⟨iv :: ivs, by simp [importList, hi, hi2], by simp [exportList, he, he2]⟩

/-- Pair-wise round trips lift to `importPairs` / `exportPairs`. -/
theorem importPairs_roundtrip (env : Env) (kt vt : Option Ty) :
    ∀ ps : List (CValue × CValue),
      (∀ p ∈ ps, ∃ ik, importValue env kt p.1 = .ok ik ∧
         exportValueWithInterpreter env [] ik = .ok p.1) →
      (∀ p ∈ ps, ∃ iv, importValue env vt p.2 = .ok iv ∧
         exportValueWithInterpreter env [] iv = .ok p.2) →
      ∃ ips, importPairs env kt vt ps = .ok ips ∧
        exportPairs env [] ips = .ok ps := by
  intro ps
  induction ps with
  | nil => exact fun _ _ => ⟨[], by simp [importPairs], by simp [exportPairs]⟩
  | cons p rest ih =>
      intro hk hv
      obtain ⟨ik, hik, hek⟩ := hk p (by simp)
      obtain ⟨iv, hiv, hev⟩ := hv p (by simp)
      obtain ⟨ips, hi2, he2⟩ :=
        ih (fun q hq => hk q (by simp [hq])) (fun q hq => hv q (by simp [hq]))
      refine ⟨(ik, iv) :: ips, ?_, ?_⟩
      · rcases p with ⟨pk, pv⟩
        simp [importPairs, hik, hiv, hi2]
      · simp [exportPairs, hek, hev, he2]

/-- In a field list with distinct names, looking up any entry's name finds
that entry's payload. -/
theorem lookup_self_of_nodup {β : Type} (l : List (String × β))
    (hnd : (l.map Prod.fst).Nodup) :
    ∀ p ∈ l, l.lookup p.1 = some p.2 := by
  induction l with
  | nil => intro p hp; cases hp
  | cons hd tl ih =>
      intro p hp
      rcases hd with ⟨k, w⟩
      rcases List.mem_cons.mp hp with rfl | hmem
      · simp [List.lookup]
      · have hk : ¬p.1 = k := by
          intro hq
          have : p.1 ∈ tl.map Prod.fst := List.mem_map_of_mem Prod.fst hmem
          rw [hq] at this
          exact (List.nodup_cons.mp hnd).1 this
        have hbeq : (p.1 == k) = false := by simpa using hk
        simp [List.lookup, hbeq]
        exact ih (List.nodup_cons.mp hnd).2 p hmem

/-- Field-wise round trips lift to `importFields`; the result pairs the
field names with the imported values in order. -/
theorem importFields_roundtrip (env : Env) (members : List (String × Ty)) :
    ∀ (fts : List (String × Ty)) (vs : List CValue),
      fts.length = vs.length →
      (∀ p ∈ fts.zip vs, members.lookup p.1.1 = some p.1.2 ∧
        ∃ iv, importValue env (some p.1.2) p.2 = .ok iv ∧
          exportValueWithInterpreter env [] iv = .ok p.2) →
      ∃ ivs : List IValue,
        importFields env members fts vs = .ok ((fts.map Prod.fst).zip ivs) ∧
        ivs.length = vs.length ∧
        (∀ p ∈ ivs.zip vs, exportValueWithInterpreter env [] p.1 = .ok p.2) := by
  intro fts
  induction fts with
  | nil =>
      intro vs hlen h
      refine ⟨[], ?_, ?_, ?_⟩
      · cases vs <;> simp [importFields]
      · simpa using hlen
      · intro p hp; simp at hp
  | cons ft fts ih =>
      intro vs hlen h
      cases vs with
      | nil => simp at hlen
      | cons v vs' =>
          obtain ⟨hlook, iv, hi, he⟩ := h (ft, v) (by simp)
          obtain ⟨ivs, h1, h2, h3⟩ := ih vs' (by simpa using hlen)
            (fun p hp => h p (by simp [List.zip_cons_cons, hp]))
          refine ⟨iv :: ivs, ?_, by simpa using h2, ?_⟩
          · rcases ft with ⟨fname, fty⟩
            simp only at hlook
            simp [importFields, hlook, hi, h1, List.zip_cons_cons]
          · intro p hp
            rw [List.zip_cons_cons] at hp
            rcases List.mem_cons.mp hp with rfl | hmem
            · exact he
            · exact h3 p hmem

/-- Reduction of `exportFields` when the walked name is absent. -/
theorem exportFields_cons_none (env : Env) (seen : List Nat)
    (fields : List (String × IValue)) (n : String) (ns : List String)
    (h : List.lookup n fields = none) :
    exportFields env seen fields (n :: ns) =
      .error "cannot export value: missing field" := by
  simp only [exportFields]
  split
  · rfl
  · rename_i w heq
    rw [h] at heq
    cases heq

/-- Reduction of `exportFields` when the walked name is found. -/
theorem exportFields_cons_some (env : Env) (seen : List Nat)
    (fields : List (String × IValue)) (n : String) (ns : List String) (v : IValue)
    (h : List.lookup n fields = some v) :
    exportFields env seen fields (n :: ns) =
      (match exportValueWithInterpreter env seen v with
       | .error e => .error e
       | .ok c =>
           match exportFields env seen fields ns with
           | .error e => .error e
           | .ok cs => .ok (c :: cs)) := by
  simp only [exportFields]
  split
  · rename_i heq
    rw [h] at heq
    cases heq
  · rename_i w heq
    rw [h] at heq
    injection heq with hw
    subst hw
    rfl

/-- A leading field whose name is not among the walked names does not
affect `exportFields`. -/
theorem exportFields_skip (env : Env) (seen : List Nat) (n : String) (iv : IValue)
    (fields : List (String × IValue)) :
    ∀ names : List String, n ∉ names →
      exportFields env seen ((n, iv) :: fields) names =
        exportFields env seen fields names := by
  intro names
  induction names with
  | nil => intro _; simp [exportFields]
  | cons m ms ih =>
      intro hn
      have hne : (m == n) = false := by
        simp only [beq_eq_false_iff_ne, ne_eq]
        rintro rfl
        exact hn (by simp)
      have hlu : List.lookup m ((n, iv) :: fields) = List.lookup m fields := by
        simp [List.lookup, hne]
      have hrec := ih fun hm => hn (by simp [hm])
      cases hcase : List.lookup m fields with
      | none =>
          rw [exportFields_cons_none env seen _ m ms (hlu.trans hcase),
            exportFields_cons_none env seen _ m ms hcase]
      | some v =>
          rw [exportFields_cons_some env seen _ m ms v (hlu.trans hcase),
            exportFields_cons_some env seen _ m ms v hcase, hrec]

/-- Exporting the declared field names off a name-keyed field list with
distinct names recovers the exported field values in order. -/
theorem exportFields_zip (env : Env) :
    ∀ (names : List String) (ivs : List IValue) (vs : List CValue),
      names.Nodup →
      names.length = ivs.length →
      ivs.length = vs.length →
      (∀ p ∈ ivs.zip vs, exportValueWithInterpreter env [] p.1 = .ok p.2) →
      exportFields env [] (names.zip ivs) names = .ok vs := by
  intro names
  induction names with
  | nil =>
      intro ivs vs _ h1 h2 _
      cases ivs with
      | nil =>
          cases vs with
          | nil => simp [exportFields]
          | cons _ _ => simp at h2
      | cons _ _ => simp at h1
  | cons n ns ih =>
      intro ivs vs hnd h1 h2 hexp
      cases ivs with
      | nil => simp at h1
      | cons iv ivs' =>
          cases vs with
          | nil => simp at h2
          | cons v vs' =>
              have hv : exportValueWithInterpreter env [] iv = .ok v :=
                hexp (iv, v) (by simp [List.zip_cons_cons])
              have hskip := exportFields_skip env [] n iv (ns.zip ivs') ns
                (List.nodup_cons.mp hnd).1
              have hrest := ih ivs' vs' (List.nodup_cons.mp hnd).2
                (by simpa using h1) (by simpa using h2)
                (fun p hp => hexp p (by simp [List.zip_cons_cons, hp]))
              have hhead : List.lookup n ((n, iv) :: ns.zip ivs') = some iv := by
                simp [List.lookup]
              rw [List.zip_cons_cons,
                exportFields_cons_some env [] _ n ns iv hhead, hv, hskip, hrest]

/-- Export after import is the identity on the import-supported subset. -/
theorem roundtrip_main :
    ∀ (env : Env) (t : Ty) (v : CValue), Supported env t v →
      ∃ iv, importValue env (some t) v = .ok iv ∧
        exportValueWithInterpreter env [] iv = .ok v := by
  intro env t v h
  induction h with
  | voidS =>
      exact ⟨.void, by simp [importValue], by simp [exportValueWithInterpreter]⟩
  | optNone t =>
      exact ⟨.nilValue, by simp [importValue, importOptionalValue],
        by simp [exportValueWithInterpreter]⟩
  | optSome hs ih =>
      obtain ⟨iv, hi, he⟩ := ih
      refine ⟨.someValue iv, ?_, ?_⟩
      · simp [importValue, importOptionalValue, expectedOptionalInner, hi]
      · simp [exportValueWithInterpreter, he, wrapOptional_of_ne_null hs.ne_null]
  | boolS b =>
      exact ⟨.boolValue b, by simp [importValue], by simp [exportValueWithInterpreter]⟩
  | stringS s =>
      exact ⟨.stringValue s, by simp [importValue], by simp [exportValueWithInterpreter]⟩
  | charS s =>
      exact ⟨.charValue s, by simp [importValue], by simp [exportValueWithInterpreter]⟩
  | numS k n =>
      exact ⟨.num k n, by simp [importValue], by simp [exportValueWithInterpreter]⟩
  | addressS a =>
      exact ⟨.address a, by simp [importValue], by simp [exportValueWithInterpreter]⟩
  | pathS i hd =>
      rename_i d
      exact ⟨.pathValue (pathDomainFromIdentifier d) i,
        by simp [importValue, importPathValue],
        by simp [exportValueWithInterpreter, domainIdent_roundtrip hd]⟩
  | arrayS hall ih =>
      rename_i t vs
      obtain ⟨ivs, h1, h2⟩ := importList_roundtrip env (some t) vs ih
      refine ⟨.arrayValue t ivs, ?_, ?_⟩
      · simp [importValue, importArrayValue, expectedArrayElement, h1, finishArrayImport]
      · simp [exportValueWithInterpreter, h2]
  | dictS hks hvs ihk ihv =>
      rename_i kt vt ps
      obtain ⟨ips, h1, h2⟩ := importPairs_roundtrip env (some kt) (some vt) ps ihk ihv
      refine ⟨.dictValue kt vt ips, ?_, ?_⟩
      · simp [importValue, importDictionaryValue, expectedDictTypes, h1, finishDictionaryImport]
      · simp [exportValueWithInterpreter, h2]
  | compositeS hget hkind hck hnd hlen hall ih =>
      rename_i kind l qid info vs
      have hforall : ∀ p ∈ info.fields.zip vs,
          info.fields.lookup p.1.1 = some p.1.2 ∧
          ∃ iv, importValue env (some p.1.2) p.2 = .ok iv ∧
            exportValueWithInterpreter env [] iv = .ok p.2 :=
        fun p hp =>
          ⟨lookup_self_of_nodup info.fields hnd p.1 (List.mem_zip hp).1, ih p hp⟩
      obtain ⟨ivs, h1, h2, h3⟩ :=
        importFields_roundtrip env info.fields info.fields vs hlen.symm hforall
      refine ⟨.compositeValue kind (some l) qid ((info.fields.map Prod.fst).zip ivs), ?_, ?_⟩
      · cases kind <;>
          first
            | exact absurd rfl hck
            | simp [importValue, importCompositeValue, hget, h1]
      · have hnames_len : (info.fields.map Prod.fst).length = ivs.length := by
          rw [List.length_map, ← hlen, ← h2]
        have hexp := exportFields_zip env (info.fields.map Prod.fst) ivs vs hnd hnames_len h2 h3
        simp [exportValueWithInterpreter, hget, hexp, hkind]
  | typeS hres =>
      rename_i t
      exact ⟨.typeValue (some t), by simp [importValue, importTypeValue, hres],
        by simp [exportValueWithInterpreter, hres]⟩
  | capabilityS i addr hd hres =>
      rename_i d auth bt
      exact ⟨.capabilityValue addr (pathDomainFromIdentifier d) i (.reference auth bt),
        by simp [importValue, importCapability, Ty.isReference],
        by simp [exportValueWithInterpreter, hres, domainIdent_roundtrip hd]⟩


/-! ### Claim theorems -/

/-- Claim C1 (counterexample): as stated, "a non-resource type is never a
subtype of a resource type" fails at `Never`: `Never` is not a resource
type, `AnyResource` is, and yet `Type<Never>().isSubtype(of:
Type<AnyResource>())` is true, because `Never <: T` for every `T`. -/
theorem C1_counterexample :
    metaIsSubtype (some Ty.never) (some Ty.anyResource) = true ∧
    Ty.never.isResource = false ∧ Ty.anyResource.isResource = true := by
  decide

/-- Claim C1 (amended): the runtime subtype relation exposed through
meta-types is reflexive and respects the optional and resource/struct
hierarchies: `Type<T>().isSubtype(of: Type<T>())` is true for every type;
`Int <: Int?` but not conversely; every resource composite type is a
subtype of `AnyResource`; a resource type is never a subtype of a
non-resource type; and a non-resource type not involving `Never` is never a
subtype of a resource type (`Never`, being uninhabited, is a subtype of
every type). -/
theorem C1_subtype_hierarchy :
    (∀ t : Ty, metaIsSubtype (some t) (some t) = true) ∧
    metaIsSubtype (some (.num .int)) (some (.optional (.num .int))) = true ∧
    metaIsSubtype (some (.optional (.num .int))) (some (.num .int)) = false ∧
    (∀ (loc : Option String) (qid : String),
      metaIsSubtype (some (.composite .resourceKind loc qid)) (some .anyResource) = true) ∧
    (∀ a b : Ty, a.isResource = true → b.isResource = false → isSubType a b = false) ∧
    (∀ a b : Ty, a.isResource = false → a.mentionsNever = false → b.isResource = true →
      isSubType a b = false) := by
  refine ⟨fun t => ?_, by decide, by decide, fun loc qid => ?_, ?_, ?_⟩
  · simp [metaIsSubtype, isSubType_refl]
  · simp [metaIsSubtype, isSubType, Ty.isResource]
  · exact fun a b ha hb => resource_not_subtype_of_nonresource b a ha hb
  · exact fun a b ha hn hb => nonresource_not_subtype_of_resource b a ha hn hb

/-- Witness for C1 at a concrete resource type: `@R` is not a subtype of
`String`, and `Int` (never-free, non-resource) is not a subtype of `@R`. -/
theorem C1_witness :
    isSubType (Ty.composite .resourceKind (some "test") "R") Ty.stringTy = false ∧
    isSubType (Ty.num .int) (Ty.composite .resourceKind (some "test") "R") = false :=
  ⟨C1_subtype_hierarchy.2.2.2.2.1 _ _ (by decide) (by decide),
   C1_subtype_hierarchy.2.2.2.2.2 _ _ (by decide) (by decide) (by decide)⟩

/-- Claim C3 (counterexample): "two reference meta-types are equal iff
their borrowed types are equal" fails when the references differ in
authorization: `Type<auth &Int>()` and `Type<&Int>()` have equal borrowed
types yet are not equal. -/
theorem C3_counterexample :
    ¬(metaEqual (some (.reference true (.num .int))) (some (.reference false (.num .int))) = true
      ↔ (Ty.num .int = Ty.num .int)) := by
  decide

/-- Claim C3 (amended): meta-type equality is decided by type identity:
`Type<Int>() == Type<Int>()` is true, `Type<Int>() == Type<String>()` and
`Type<Int>() == Type<Int?>()` are false; and two reference meta-types of
the same authorization are equal iff their borrowed types are equal. -/
theorem C3_meta_type_equality :
    metaEqual (some (.num .int)) (some (.num .int)) = true ∧
    metaEqual (some (.num .int)) (some .stringTy) = false ∧
    metaEqual (some (.num .int)) (some (.optional (.num .int))) = false ∧
    metaEqual (some (.reference false (.num .int))) (some (.reference false (.num .int))) = true ∧
    metaEqual (some (.reference false (.num .int))) (some (.reference false .stringTy)) = false ∧
    (∀ (auth : Bool) (t1 t2 : Ty),
      metaEqual (some (.reference auth t1)) (some (.reference auth t2)) = true ↔ t1 = t2) := by
  refine ⟨by decide, by decide, by decide, by decide, by decide, fun auth t1 t2 => ?_⟩
  simp [metaEqual]

/-- Claim C4: an unknown meta-type (nil static type) makes every meta-type
predicate return false: it is never a subtype, never a supertype, never an
instance target, and never equal to anything — including another unknown
meta-type. -/
theorem C4_unknown_meta_type :
    (∀ t : Ty, metaIsSubtype none (some t) = false) ∧
    (∀ t : Ty, metaIsSubtype (some t) none = false) ∧
    metaIsSubtype none none = false ∧
    (∀ v : IValue, v.isInstance none = false) ∧
    (∀ t : Ty, metaEqual (some t) none = false) ∧
    (∀ t : Ty, metaEqual none (some t) = false) ∧
    metaEqual none none = false :=
  ⟨fun _ => rfl, fun _ => rfl, rfl, fun _ => rfl, fun _ => rfl, fun _ => rfl, rfl⟩

/-- Claim C10: `getType()` on a reference value returns the static type of
the reference itself without dereferencing it: for an authorized ephemeral
reference to an `Int` wrapped in an optional, the result is
`Optional(ReferenceType(authorized: true, Int))`, independent of the
referenced value; likewise for a storage reference, even though
dereferencing would yield an `Int`. -/
theorem C10_getType_reference :
    (∀ (env : Env) (target : IValue) (rid : Nat),
        env.refHeap.lookup rid = some target → target.staticType = .num .int →
        IValue.getType (.someValue (.ephemeralRef true (.num .int) rid)) =
          .typeValue (some (.optional (.reference true (.num .int))))) ∧
    (∀ (env : Env) (addr : Nat) (d : Domain) (i : String) (sv : IValue),
        env.storage.lookup (addr, d, i) = some sv → sv.staticType = .num .int →
        IValue.getType (.someValue (.storageRef true addr d i (.num .int))) =
          .typeValue (some (.optional (.reference true (.num .int))))) :=
  ⟨fun _ _ _ _ _ => rfl, fun _ _ _ _ _ _ _ => rfl⟩

/-- Witness for C10 on a concrete heap and store holding an `Int`. -/
theorem C10_witness :
    IValue.getType (.someValue (.ephemeralRef true (.num .int) 0)) =
      .typeValue (some (.optional (.reference true (.num .int)))) ∧
    IValue.getType (.someValue (.storageRef true 7 .storage "test" (.num .int))) =
      .typeValue (some (.optional (.reference true (.num .int)))) :=
  ⟨C10_getType_reference.1 (Env.mk [] [(0, .num .int 2)] []) (.num .int 2) 0 rfl rfl,
   C10_getType_reference.2 (Env.mk [] [] [((7, .storage, "test"), .num .int 5)])
     7 .storage "test" (.num .int 5) rfl rfl⟩

/-- Claim C2: for each of the access modifiers `pub`, `access(account)`
and `access(contract)`, each declaration kind (`let`, `var`), and both
struct and resource composites, a function outside the composite's access
scope that index-assigns into its container-typed field (array or
dictionary) is rejected with an ExternalMutationError — also recursively
through nested field accesses (`bar.foo.x[0] = 3`) and for contract fields
(`Foo.x[0] = 1`, `Foo.x.y[0] = 1`, where the latter two additionally
raise an InvalidAccessError when the field is `access(contract)`). -/
theorem C2_external_mutation :
    ∀ (acc : Access) (dk : DeclKind),
      acc = Access.pubAccess ∨ acc = Access.accountAccess ∨ acc = Access.contractAccess →
      (∀ vk : CompositeKind,
        vk = CompositeKind.structureKind ∨ vk = CompositeKind.resourceKind →
        checkProgram (progUpdateIndexAccess (.array (.num .int)) acc dk vk) =
          [.externalMutation] ∧
        checkProgram (progUpdateIndexAccess (.dictionary (.num .int) (.num .int)) acc dk vk) =
          [.externalMutation]) ∧
      checkProgram (progNestedUpdateIndexAccess (.array (.num .int)) acc dk) =
        [.externalMutation] ∧
      checkProgram (progNestedUpdateIndexAccess (.dictionary (.num .int) (.num .int)) acc dk) =
        [.externalMutation] ∧
      (checkProgram (progMutateContractIndexAccess acc dk)).count .externalMutation = 1 ∧
      (checkProgram (progContractNestedStructIndexAccess acc dk)).count .externalMutation = 1 := by
  intro acc dk hacc
  rcases hacc with rfl | rfl | rfl <;> cases dk <;>
    exact ⟨fun vk hvk => by rcases hvk with rfl | rfl <;> exact ⟨by decide, by decide⟩,
      by decide, by decide, by decide, by decide⟩

/-- Witness for C2 at `pub let` on a struct. -/
theorem C2_witness :
    checkProgram (progUpdateIndexAccess (.array (.num .int)) .pubAccess .letKind
      .structureKind) = [.externalMutation] :=
  ((C2_external_mutation .pubAccess .letKind (Or.inl rfl)).1
    .structureKind (Or.inl rfl)).1

/-- Claim C9: for every access modifier (`pub`, `access(account)`,
`access(contract)`) and declaration kind (`let`, `var`) of the inner
struct's container field `y`, a contract whose initializer runs
`self.x = S(); self.x.y[1] = 2` is rejected with exactly one
ExternalMutationError (and no other error): the mutation goes through a
nested composite field, so even the owning contract's own initializer is
outside the inner struct's access scope. -/
theorem C9_contract_init_external_mutation :
    ∀ (acc : Access) (dk : DeclKind),
      acc = Access.pubAccess ∨ acc = Access.accountAccess ∨ acc = Access.contractAccess →
      checkProgram (progContractStructInitIndexAccess acc dk) = [.externalMutation] := by
  intro acc dk hacc
  rcases hacc with rfl | rfl | rfl <;> cases dk <;> decide

/-- Witness for C9 at `access(contract) var`. -/
theorem C9_witness :
    checkProgram (progContractStructInitIndexAccess .contractAccess .varKind) =
      [.externalMutation] :=
  C9_contract_init_external_mutation .contractAccess .varKind (Or.inr (Or.inr rfl))

/-- Claim C6: value export terminates on every input, including values
containing reference cycles: an ephemeral reference already in the
seen-references set exports to `nil` instead of recursing; a storage
reference is dereferenced exactly once — its target is read through the
storage layer and then exported, and an absent target makes the export of
the reference yield `nil`.  The final conjunct runs the export on a cyclic
heap (the array at reference 0 contains a reference back to 0) and obtains
a result, the cycle broken by `nil`. -/
theorem C6_export_termination :
    (∀ (env : Env) (seen : List Nat) (auth : Bool) (bt : Ty) (id : Nat),
        seen.contains id = true →
        exportValueWithInterpreter env seen (.ephemeralRef auth bt id) = .ok .null) ∧
    (∀ (env : Env) (seen : List Nat) (auth : Bool) (addr : Nat) (d : Domain)
        (i : String) (bt : Ty),
        env.storage.lookup (addr, d, i) = none →
        exportValueWithInterpreter env seen (.storageRef auth addr d i bt) = .ok .null) ∧
    (∀ (env : Env) (seen : List Nat) (auth : Bool) (addr : Nat) (d : Domain)
        (i : String) (bt : Ty) (sv : IValue),
        env.storage.lookup (addr, d, i) = some sv → refFree sv = true →
        exportValueWithInterpreter env seen (.storageRef auth addr d i bt) =
          exportValueWithInterpreter env seen sv) ∧
    exportValueWithInterpreter
        (Env.mk [] [(0, .arrayValue (.num .int) [.num .int 1, .ephemeralRef false (.num .int) 0])] [])
        [] (.ephemeralRef false (.num .int) 0) =
      .ok (.arrayValue (some (.array (.num .int))) [.num .int 1, .null]) := by
  refine ⟨fun env seen auth bt id h => ?_, fun env seen auth addr d i bt h => ?_,
    fun env seen auth addr d i bt sv h hsv => ?_, ?_⟩
  · simp only [exportValueWithInterpreter]
    rw [dif_pos h]
  · simp [exportValueWithInterpreter, h]
  · simp [exportValueWithInterpreter, h, hsv]
  · simp [exportValueWithInterpreter, exportList, List.lookup]

/-- Witness for C6: a seen reference exports to `nil`, and a dangling
storage reference exports to `nil`. -/
theorem C6_witness :
    exportValueWithInterpreter (Env.mk [] [] []) [3]
        (.ephemeralRef false (.num .int) 3) = .ok .null ∧
    exportValueWithInterpreter (Env.mk [] [] []) []
        (.storageRef true 7 .storage "missing" (.num .int)) = .ok .null :=
  ⟨C6_export_termination.1 (Env.mk [] [] []) [3] false (.num .int) 3 (by decide),
   C6_export_termination.2.1 (Env.mk [] [] []) [] true 7 .storage "missing" (.num .int) rfl⟩

/-- Claim C7: importing a host capability succeeds iff its borrow type is
a reference type: a non-reference borrow type is an import error (no
capability value is constructed), and a reference borrow type yields a
capability value carrying the same address, path and borrow type. -/
theorem C7_import_capability :
    ∀ (d i : String) (addr : Nat) (bt : Ty),
      (bt.isReference = false → ∃ e, importCapability d i addr bt = .error e) ∧
      (∀ (auth : Bool) (u : Ty), bt = .reference auth u →
        importCapability d i addr bt =
          .ok (.capabilityValue addr (pathDomainFromIdentifier d) i bt)) := by
  intro d i addr bt
  constructor
  · intro h
    exact ⟨"cannot import capability: expected reference", by simp [importCapability, h]⟩
  · rintro auth u rfl
    simp [importCapability, Ty.isReference]

/-- Witness for C7: a `&Int` borrow type imports, an `Int` borrow type is
rejected. -/
theorem C7_witness :
    (∃ e, importCapability "public" "c" 1 (.num .int) = .error e) ∧
    importCapability "public" "c" 1 (.reference false (.num .int)) =
      .ok (.capabilityValue 1 (pathDomainFromIdentifier "public") "c"
        (.reference false (.num .int))) :=
  ⟨(C7_import_capability "public" "c" 1 (.num .int)).1 (by decide),
   (C7_import_capability "public" "c" 1 (.reference false (.num .int))).2
     false (.num .int) rfl⟩

/-- Claim C5: Export∘Import is the identity on the import-supported subset
of host values with their expected types (round-trip law R1): for every
supported value `v` at type `t`, importing `v` at `t` succeeds and
exporting the imported value yields `v` again. -/
theorem C5_import_export_roundtrip :
    ∀ (env : Env) (t : Ty) (v : CValue), Supported env t v →
      ∃ iv, importValue env (some t) v = .ok iv ∧ ExportValue env iv = .ok v :=
  roundtrip_main

/-- Witness for C5 on a concrete supported array of integers. -/
theorem C5_witness :
    ∃ iv, importValue (Env.mk [] [] []) (some (.array (.num .int)))
        (.arrayValue (some (.array (.num .int))) [.num .int 1, .num .int 2]) = .ok iv ∧
      ExportValue (Env.mk [] [] []) iv =
        .ok (.arrayValue (some (.array (.num .int))) [.num .int 1, .num .int 2]) :=
  C5_import_export_roundtrip (Env.mk [] [] []) (.array (.num .int)) _
    (Supported.arrayS (by
      intro w hw
      simp only [List.mem_cons, List.not_mem_nil, or_false] at hw
      rcases hw with rfl | rfl <;> exact Supported.numS .int _))

/-- A list of `UInt8` host numbers imports element-wise. -/
theorem importList_num (env : Env) (k : NumKind) (t : Ty) :
    ∀ bs : List Int,
      importList env (some t) (bs.map fun b => CValue.num k b) =
        .ok (bs.map fun b => IValue.num k b) := by
  intro bs
  induction bs with
  | nil => simp [importList]
  | cons b bs ih => simp [importList, importValue, ih]

/-- The `SignatureAlgorithm` enum case imports through its dedicated
constructor. -/
theorem importSignatureAlgorithm_ok (env : Env) (ck : CompositeKind) (n : Int) :
    importCompositeValue env ck none "SignatureAlgorithm"
      [("rawValue", .num .uint8)] [.num .uint8 n] = .ok (newSignatureAlgorithmCase n) := by
  simp [importCompositeValue, getCompositeType, nativeCompositeInfo, importFields,
    importValue, List.lookup, importSignatureAlgorithm, importRawValueLoop]

/-- Claim C8: an inbound composite with a nil location imports only for
the qualified identifiers `PublicKey`, `HashAlgorithm` and
`SignatureAlgorithm`, each through its dedicated path (`PublicKey` through
its constructor from a `publicKey` array and a `signatureAlgorithm`
composite; the two algorithm enums through their enum-case constructors,
requiring a `UInt8` `rawValue` field); any other nil-location identifier is
an import error, and a located composite that does not resolve to a known
composite type fails to import. -/
theorem C8_import_builtin_composites :
    (∀ (env : Env) (ck : CompositeKind) (qid : String) (fts : List (String × Ty))
        (vs : List CValue), nativeCompositeInfo qid = none →
        ∃ e, importCompositeValue env ck none qid fts vs = .error e) ∧
    (∀ (env : Env) (ck : CompositeKind) (l qid : String) (fts : List (String × Ty))
        (vs : List CValue), env.composites.lookup (l, qid) = none →
        ∃ e, importCompositeValue env ck (some l) qid fts vs = .error e) ∧
    (∀ (env : Env) (ck : CompositeKind) (n : Int),
        importCompositeValue env ck none "HashAlgorithm"
          [("rawValue", .num .uint8)] [.num .uint8 n] = .ok (newHashAlgorithmCase n)) ∧
    (∀ (env : Env) (ck : CompositeKind) (n : Int),
        importCompositeValue env ck none "SignatureAlgorithm"
          [("rawValue", .num .uint8)] [.num .uint8 n] = .ok (newSignatureAlgorithmCase n)) ∧
    (∀ (env : Env) (ck : CompositeKind) (s : String),
        ∃ e, importCompositeValue env ck none "HashAlgorithm"
          [("rawValue", .num .uint8)] [.stringValue s] = .error e) ∧
    (∀ (env : Env) (ck : CompositeKind) (bs : List Int) (n : Int),
        importCompositeValue env ck none "PublicKey"
          [("publicKey", .array (.num .uint8)),
           ("signatureAlgorithm", .composite .enumKind none "SignatureAlgorithm")]
          [.arrayValue (some (.array (.num .uint8))) (bs.map fun b => .num .uint8 b),
           .compositeValue .enumKind none "SignatureAlgorithm"
             [("rawValue", .num .uint8)] [.num .uint8 n]] =
          .ok (.compositeValue .structureKind none "PublicKey"
            [("publicKey", .arrayValue (.num .uint8) (bs.map fun b => .num .uint8 b)),
             ("signatureAlgorithm", newSignatureAlgorithmCase n)])) := by
  refine ⟨fun env ck qid fts vs h => ?_, fun env ck l qid fts vs h => ?_,
    fun env ck n => ?_, fun env ck n => importSignatureAlgorithm_ok env ck n,
    fun env ck s => ?_, fun env ck bs n => ?_⟩
  · exact ⟨"cannot load type: " ++ qid, by simp [importCompositeValue, getCompositeType, h]⟩
  · exact ⟨"cannot load type: " ++ qid, by simp [importCompositeValue, getCompositeType, h]⟩
  · simp [importCompositeValue, getCompositeType, nativeCompositeInfo, importFields,
      importValue, List.lookup, importHashAlgorithm, importRawValueLoop]
  · exact ⟨"cannot import HashAlgorithm: invalid value for field rawValue",
      by simp [importCompositeValue, getCompositeType, nativeCompositeInfo, importFields,
        importValue, List.lookup, importHashAlgorithm, importRawValueLoop]⟩
  · have harr : importValue env (some (.array (.num .uint8)))
        (.arrayValue (some (.array (.num .uint8))) (bs.map fun b => .num .uint8 b)) =
        .ok (.arrayValue (.num .uint8) (bs.map fun b => .num .uint8 b)) := by
      simp [importValue, importArrayValue, expectedArrayElement, importList_num,
        finishArrayImport]
    have hsig : importValue env (some (.composite .enumKind none "SignatureAlgorithm"))
        (.compositeValue .enumKind none "SignatureAlgorithm"
          [("rawValue", .num .uint8)] [.num .uint8 n]) =
        .ok (newSignatureAlgorithmCase n) := by
      simp [importValue, importSignatureAlgorithm_ok]
    simp [importCompositeValue, getCompositeType, nativeCompositeInfo, importFields,
      List.lookup, harr, hsig, importPublicKey, importPublicKeyLoop,
      newSignatureAlgorithmCase]

/-- Witness for C8: `AccountKey` (nil location, not a native constructor
target) fails to import; a located composite unknown to the environment
fails; `HashAlgorithm` with a non-`UInt8` `rawValue` fails. -/
theorem C8_witness :
    (∃ e, importCompositeValue (Env.mk [] [] []) .structureKind none "AccountKey"
      [] [] = .error e) ∧
    (∃ e, importCompositeValue (Env.mk [] [] []) .structureKind (some "test") "S"
      [] [] = .error e) ∧
    (∃ e, importCompositeValue (Env.mk [] [] []) .enumKind none "HashAlgorithm"
      [("rawValue", .num .uint8)] [.stringValue "x"] = .error e) :=
  ⟨C8_import_builtin_composites.1 (Env.mk [] [] []) .structureKind "AccountKey" [] [] rfl,
   C8_import_builtin_composites.2.1 (Env.mk [] [] []) .structureKind "test" "S" [] [] rfl,
   C8_import_builtin_composites.2.2.2.2.1 (Env.mk [] [] []) .enumKind "x"⟩

end Cadence
